import Mathlib

set_option maxHeartbeats 1000000

namespace UrbansimTemplates

/-!
Verification of the capacity-constrained choice-simulation subsystem of
`urbansim_templates` (module `models/large_multinomial_logit.py`, with helper
functions from `utils.py`).

The iterative lottery allocator, the alternative sampler and the Monte-Carlo
choice simulator live in the external `choicemodels` package, which is only
called (never defined) in this repository, so those components are modelled
from the specification text.  Everything else is embedded directly from the
repository's source.
-/

/-! ## Capacity-constrained iterative lottery allocator

Modelled from the spec: the code called at
`models/large_multinomial_logit.py` line 737 (`iterative_lottery_choices`)
belongs to the external `choicemodels` package and is not part of this
repository, so the allocator below follows spec section 4.5 word for word:
a state machine over a pool of remaining choosers and remaining alternative
capacities.  Per iteration: exit if the pool is empty (DONE) or no
alternative has remaining capacity (EXHAUSTED); otherwise every remaining
chooser picks one alternative among those with positive remaining capacity
(the sampler/estimator/simulator pipeline is abstracted as the oracle `σ`,
which selects an index into the available-alternatives list); then each
alternative accepts its claimants in table order, consuming each accepted
chooser's `size` against the remaining capacity until capacity is exhausted,
rejecting the remainder back into the pool; accepted choosers leave the
pool, matched capacity is decremented, and zero-capacity alternatives are
dropped from future sampling. -/

structure Chooser where
  id : Nat
  size : Nat
deriving DecidableEq, Repr

/-- Allocator state: remaining choosers, remaining capacity per alternative
id, and the accepted (chooser, alternative) pairs so far. -/
structure LState where
  pool : List Chooser
  caps : List (Nat × Nat)
  result : List (Chooser × Nat)
deriving DecidableEq, Repr

/-- Remaining capacity recorded for alternative `a` (0 if unknown). -/
def capLookup (caps : List (Nat × Nat)) (a : Nat) : Nat :=
  match caps.find? (fun p => p.1 == a) with
  | some p => p.2
  | none => 0

/-- Total size of the choosers assigned to alternative `a` in a result list. -/
def sizeAssigned (l : List (Chooser × Nat)) (a : Nat) : Nat :=
  ((l.filter (fun p => p.2 == a)).map (fun p => p.1.size)).sum

/-- Alternatives that still have positive remaining capacity. -/
def availOf (caps : List (Nat × Nat)) : List (Nat × Nat) :=
  caps.filter (fun p => 0 < p.2)

/-- The alternative id selected by an oracle draw `n` from the available
list (the simulator can only return sampled alternatives, and sampling is
restricted to alternatives with remaining capacity). -/
def pickAlt (avail : List (Nat × Nat)) (n : Nat) : Nat :=
  (avail.getD (n % avail.length) (0, 0)).1

/-- Matching pass of one iteration: walk the claimed choices in table order,
tracking the cumulative size `cl` claimed against each alternative; a
chooser is accepted while its alternative's capacity is not yet exhausted,
and once the cumulative claim passes the capacity the remainder of that
alternative's claimants are rejected back into the pool.  Returns
(accepted pairs, rejected choosers), both in table order. -/
def matchGo (cap : Nat → Nat) : List (Chooser × Nat) → (Nat → Nat) →
    List (Chooser × Nat) × List Chooser
  | [], _ => ([], [])
  | (c, a) :: rest, cl =>
    let cl' : Nat → Nat := fun x => if x = a then cl x + c.size else cl x
    let r := matchGo cap rest cl'
    if cl a + c.size ≤ cap a then ((c, a) :: r.1, r.2) else (r.1, c :: r.2)

/-- One iteration of the lottery (spec section 4.5, steps 1-5). -/
def lstep (σ : Nat → Nat → Nat) (i : Nat) (s : LState) : LState :=
  if s.pool.isEmpty then s
  else
    let avail := availOf s.caps
    if avail.isEmpty then s
    else
      let choices := s.pool.map (fun c => (c, pickAlt avail (σ i c.id)))
      let m := matchGo (capLookup s.caps) choices (fun _ => 0)
      { pool := m.2,
        caps := s.caps.map (fun p => (p.1, p.2 - sizeAssigned m.1 p.1)),
        result := s.result ++ m.1 }

/-- Iterate the lottery for `n` iterations starting at iteration index `i`
(terminal states are fixed points of `lstep`, so running extra iterations
after termination does not change the state). -/
def lotteryGo (σ : Nat → Nat → Nat) : Nat → Nat → LState → LState
  | _, 0, s => s
  | i, n + 1, s => lotteryGo σ (i + 1) n (lstep σ i s)

/-- DONE (pool empty: all choosers matched) or EXHAUSTED (no alternative
has remaining capacity). -/
def isTerminal (s : LState) : Bool := s.pool.isEmpty || (availOf s.caps).isEmpty

def initState (pool : List Chooser) (caps : List (Nat × Nat)) : LState :=
  { pool := pool, caps := caps, result := [] }

/-- The allocation result after `fuel` iterations of the lottery over the
given choosers and capacities (`fuel` covers both a `max_iter` bound and
any finite prefix of an unbounded run). -/
def iterative_lottery_choices (σ : Nat → Nat → Nat) (fuel : Nat)
    (pool : List Chooser) (caps : List (Nat × Nat)) : List (Chooser × Nat) :=
  (lotteryGo σ 0 fuel (initState pool caps)).result

theorem sizeAssigned_nil (a : Nat) : sizeAssigned [] a = 0 := rfl

theorem sizeAssigned_cons (c : Chooser) (b : Nat) (l : List (Chooser × Nat))
    (a : Nat) :
    sizeAssigned ((c, b) :: l) a =
      (if b = a then c.size else 0) + sizeAssigned l a := by
  by_cases h : b = a <;> simp [sizeAssigned, h]

theorem sizeAssigned_append (l₁ l₂ : List (Chooser × Nat)) (a : Nat) :
    sizeAssigned (l₁ ++ l₂) a = sizeAssigned l₁ a + sizeAssigned l₂ a := by
  induction l₁ with
  | nil => simp [sizeAssigned]
  | cons p t ih =>
    obtain ⟨c, b⟩ := p
    simp only [List.cons_append, sizeAssigned_cons, ih]
    omega

/-- Core acceptance bound: starting from cumulative claims `cl`, the total
size accepted for alternative `a` never pushes the claim past the capacity
(and if the claim already exceeds capacity, nothing more is accepted). -/
theorem matchGo_claim_bound (cap : Nat → Nat) (choices : List (Chooser × Nat))
    (cl : Nat → Nat) (a : Nat) :
    cl a + sizeAssigned (matchGo cap choices cl).1 a ≤ max (cap a) (cl a) := by
  induction choices generalizing cl with
  | nil => simp [matchGo, sizeAssigned_nil]
  | cons p rest ih =>
    obtain ⟨c, b⟩ := p
    simp only [matchGo]
    set cl2 : Nat → Nat := fun x => if x = b then cl x + c.size else cl x
      with hcl2
    have h2 := ih cl2
    by_cases hab : b = a
    · subst hab
      have hv : cl2 b = cl b + c.size := by simp [hcl2]
      rw [hv] at h2
      by_cases hacc : cl b + c.size ≤ cap b
      · simp only [if_pos hacc, sizeAssigned_cons, if_pos rfl]
        simp only [eq_self_iff_true, if_true]
        omega
      · simp only [if_neg hacc]
        omega
    · have hv : cl2 a = cl a := by simp [hcl2, Ne.symm hab]
      rw [hv] at h2
      by_cases hacc : cl b + c.size ≤ cap b
      · simp only [if_pos hacc, sizeAssigned_cons, if_neg hab]
        omega
      · simp only [if_neg hacc]
        omega

theorem matchGo_accepted_le_cap (cap : Nat → Nat)
    (choices : List (Chooser × Nat)) (a : Nat) :
    sizeAssigned (matchGo cap choices (fun _ => 0)).1 a ≤ cap a := by
  have h := matchGo_claim_bound cap choices (fun _ => 0) a
  simpa using h

/-- Subtracting a per-alternative amount from every capacity entry commutes
with lookup. -/
theorem capLookup_map_sub (caps : List (Nat × Nat)) (f : Nat → Nat) (a : Nat) :
    capLookup (caps.map (fun p => (p.1, p.2 - f p.1))) a =
      capLookup caps a - f a := by
  induction caps with
  | nil => simp [capLookup]
  | cons p t ih =>
    by_cases h : p.1 = a
    · simp [capLookup, List.find?, h]
    · have hb : (p.1 == a) = false := by simpa using h
      simpa [capLookup, List.find?, hb] using ih

/-- One lottery iteration conserves assigned-plus-remaining units per
alternative. -/
theorem lstep_invariant (σ : Nat → Nat → Nat) (i : Nat) (s : LState) (a : Nat) :
    sizeAssigned (lstep σ i s).result a + capLookup (lstep σ i s).caps a ≤
      sizeAssigned s.result a + capLookup s.caps a := by
  unfold lstep
  by_cases h1 : s.pool.isEmpty
  · simp [h1]
  · by_cases h2 : (availOf s.caps).isEmpty
    · simp [h1, h2]
    · simp only [h1, h2, Bool.false_eq_true, if_false, if_neg]
      set choices := s.pool.map
        (fun c => (c, pickAlt (availOf s.caps) (σ i c.id))) with hch
      have hacc := matchGo_accepted_le_cap (capLookup s.caps) choices a
      simp only [sizeAssigned_append,
        capLookup_map_sub s.caps
          (fun x => sizeAssigned (matchGo (capLookup s.caps) choices
            (fun _ => 0)).1 x) a]
      omega

theorem lotteryGo_bound (σ : Nat → Nat → Nat) (i n : Nat) (s : LState)
    (a : Nat) :
    sizeAssigned (lotteryGo σ i n s).result a +
        capLookup (lotteryGo σ i n s).caps a ≤
      sizeAssigned s.result a + capLookup s.caps a := by
  induction n generalizing i s with
  | zero => simp [lotteryGo]
  | succ n ih =>
    calc sizeAssigned (lotteryGo σ i (n + 1) s).result a +
        capLookup (lotteryGo σ i (n + 1) s).caps a
        ≤ sizeAssigned (lstep σ i s).result a +
            capLookup (lstep σ i s).caps a := ih (i + 1) (lstep σ i s)
      _ ≤ sizeAssigned s.result a + capLookup s.caps a :=
          lstep_invariant σ i s a

/-- C1: For every constrained run over any chooser pool (with per-chooser
sizes) and any alternative capacities, any oracle driving the
sample/estimate/simulate pipeline, and any number of lottery iterations,
the allocation result satisfies: for every alternative, the sum of the
sizes of the choosers assigned to it is at most that alternative's original
capacity. -/
theorem C1_capacity_invariant (σ : Nat → Nat → Nat) (fuel : Nat)
    (pool : List Chooser) (caps : List (Nat × Nat)) (a : Nat) :
    sizeAssigned (iterative_lottery_choices σ fuel pool caps) a ≤
      capLookup caps a := by
  have h := lotteryGo_bound σ 0 fuel (initState pool caps) a
  have h0 : sizeAssigned (initState pool caps).result a = 0 := rfl
  have hc : capLookup (initState pool caps).caps a = capLookup caps a := rfl
  rw [h0, hc] at h
  unfold iterative_lottery_choices
  omega

theorem matchGo_length (cap : Nat → Nat) (choices : List (Chooser × Nat))
    (cl : Nat → Nat) :
    (matchGo cap choices cl).1.length + (matchGo cap choices cl).2.length =
      choices.length := by
  induction choices generalizing cl with
  | nil => simp [matchGo]
  | cons p rest ih =>
    obtain ⟨c, b⟩ := p
    simp only [matchGo]
    by_cases hacc : cl b + c.size ≤ cap b
    · simp only [if_pos hacc, List.length_cons]
      have := ih (fun x => if x = b then cl x + c.size else cl x)
      omega
    · simp only [if_neg hacc, List.length_cons]
      have := ih (fun x => if x = b then cl x + c.size else cl x)
      omega

theorem matchGo_rej_mem (cap : Nat → Nat) (choices : List (Chooser × Nat))
    (cl : Nat → Nat) (x : Chooser) (hx : x ∈ (matchGo cap choices cl).2) :
    x ∈ choices.map Prod.fst := by
  induction choices generalizing cl with
  | nil => simp [matchGo] at hx
  | cons p rest ih =>
    obtain ⟨c, b⟩ := p
    simp only [matchGo] at hx
    by_cases hacc : cl b + c.size ≤ cap b
    · simp only [if_pos hacc] at hx
      exact List.mem_cons_of_mem _ (ih _ hx)
    · simp only [if_neg hacc, List.mem_cons] at hx
      rcases hx with h | h
      · simp [h]
      · exact List.mem_cons_of_mem _ (ih _ h)

theorem lstep_caps_keys (σ : Nat → Nat → Nat) (i : Nat) (s : LState) :
    (lstep σ i s).caps.map Prod.fst = s.caps.map Prod.fst := by
  unfold lstep
  by_cases h1 : s.pool.isEmpty
  · simp [h1]
  · by_cases h2 : (availOf s.caps).isEmpty
    · simp [h1, h2]
    · simp [h1, h2, List.map_map, Function.comp]

theorem lstep_pool_subset (σ : Nat → Nat → Nat) (i : Nat) (s : LState)
    (x : Chooser) (hx : x ∈ (lstep σ i s).pool) : x ∈ s.pool := by
  unfold lstep at hx
  by_cases h1 : s.pool.isEmpty
  · simpa [h1] using hx
  · by_cases h2 : (availOf s.caps).isEmpty
    · simpa [h1, h2] using hx
    · simp only [h1, h2, Bool.false_eq_true, if_false] at hx
      have h := matchGo_rej_mem _ _ _ _ hx
      simpa [List.map_map, Function.comp] using h

theorem lstep_terminal_fix (σ : Nat → Nat → Nat) (i : Nat) (s : LState)
    (h : isTerminal s = true) : lstep σ i s = s := by
  unfold isTerminal at h
  unfold lstep
  by_cases h1 : s.pool.isEmpty
  · simp [h1]
  · simp only [h1, Bool.false_or] at h
    simp [h1, h]

theorem lotteryGo_fix (σ : Nat → Nat → Nat) (i n : Nat) (s : LState)
    (h : isTerminal s = true) : lotteryGo σ i n s = s := by
  induction n generalizing i with
  | zero => rfl
  | succ n ih =>
    show lotteryGo σ (i + 1) n (lstep σ i s) = s
    rw [lstep_terminal_fix σ i s h]
    exact ih (i + 1)

theorem find?_key_nodup (caps : List (Nat × Nat)) (p : Nat × Nat)
    (hnd : (caps.map Prod.fst).Nodup) (hp : p ∈ caps) :
    caps.find? (fun q => q.1 == p.1) = some p := by
  induction caps with
  | nil => simp at hp
  | cons q t ih =>
    simp only [List.map_cons, List.nodup_cons] at hnd
    rcases List.mem_cons.mp hp with h | h
    · subst h
      simp [List.find?]
    · have hne : (q.1 == p.1) = false := by
        have : p.1 ∈ t.map Prod.fst := List.mem_map_of_mem Prod.fst h
        have := hnd.1
        simp only [beq_eq_false_iff_ne, ne_eq]
        intro hq
        rw [hq] at this
        exact this ‹p.1 ∈ t.map Prod.fst›
      simp only [List.find?, hne]
      exact ih hnd.2 h

theorem capLookup_pos_of_avail (caps : List (Nat × Nat))
    (hnd : (caps.map Prod.fst).Nodup) (p : Nat × Nat) (hp : p ∈ availOf caps) :
    0 < capLookup caps p.1 := by
  have hmem : p ∈ caps ∧ 0 < p.2 := by
    have := List.mem_filter.mp hp
    simpa using this
  have := find?_key_nodup caps p hnd hmem.1
  simp [capLookup, this]
  exact hmem.2

theorem pickAlt_mem (avail : List (Nat × Nat)) (n : Nat)
    (h : avail ≠ []) :
    ∃ p ∈ avail, pickAlt avail n = p.1 := by
  have hlen : 0 < avail.length := List.length_pos.mpr h
  have hlt : n % avail.length < avail.length := Nat.mod_lt _ hlen
  refine ⟨avail.get ⟨n % avail.length, hlt⟩, List.get_mem _ _ _, ?_⟩
  unfold pickAlt
  rw [List.getD_eq_getElem?_getD, List.getElem?_eq_getElem hlt]
  rfl

/-- A non-terminal iteration over size-1 choosers accepts at least the first
claimant of some alternative, so the pool strictly shrinks. -/
theorem lstep_pool_lt (σ : Nat → Nat → Nat) (i : Nat) (s : LState)
    (hterm : isTerminal s = false)
    (hsz : ∀ c ∈ s.pool, c.size = 1)
    (hnd : (s.caps.map Prod.fst).Nodup) :
    (lstep σ i s).pool.length < s.pool.length := by
  unfold isTerminal at hterm
  rw [Bool.or_eq_false_iff] at hterm
  obtain ⟨hpool, havail⟩ := hterm
  unfold lstep
  simp only [hpool, havail, Bool.false_eq_true, if_false]
  obtain ⟨c, rest, hrest⟩ : ∃ c rest, s.pool = c :: rest := by
    cases hsp : s.pool with
    | nil => rw [hsp] at hpool; simp at hpool
    | cons c rest => exact ⟨c, rest, rfl⟩
  have havne : availOf s.caps ≠ [] := by
    intro hav
    rw [hav] at havail
    simp at havail
  obtain ⟨p, hpav, hpick⟩ := pickAlt_mem (availOf s.caps) (σ i c.id) havne
  have hcap : 0 < capLookup s.caps (pickAlt (availOf s.caps) (σ i c.id)) := by
    rw [hpick]
    exact capLookup_pos_of_avail s.caps hnd p hpav
  have hc1 : c.size = 1 := hsz c (by rw [hrest]; exact List.mem_cons_self c rest)
  rw [hrest]
  simp only [List.map_cons, matchGo]
  have hacc : (0 : Nat) + c.size ≤
      capLookup s.caps (pickAlt (availOf s.caps) (σ i c.id)) := by
    rw [hc1]
    omega
  simp only [if_pos hacc]
  have hlen := matchGo_length (capLookup s.caps)
    (rest.map (fun c => (c, pickAlt (availOf s.caps) (σ i c.id))))
    (fun x => if x = pickAlt (availOf s.caps) (σ i c.id)
      then 0 + c.size else 0)
  simp only [List.length_map] at hlen
  simp only [List.length_cons]
  omega

/-- With size-1 choosers, the lottery reaches a terminal state within
`|pool|` iterations. -/
theorem lotteryGo_terminal_of_size_one (σ : Nat → Nat → Nat) :
    ∀ (n i : Nat) (s : LState), (∀ c ∈ s.pool, c.size = 1) →
      (s.caps.map Prod.fst).Nodup → s.pool.length ≤ n →
      isTerminal (lotteryGo σ i n s) = true := by
  intro n
  induction n with
  | zero =>
    intro i s _ _ hlen
    have : s.pool = [] := List.eq_nil_of_length_eq_zero (Nat.le_zero.mp hlen)
    show isTerminal s = true
    simp [isTerminal, this]
  | succ n ih =>
    intro i s hsz hnd hlen
    by_cases ht : isTerminal s = true
    · rw [lotteryGo_fix σ i (n + 1) s ht]
      exact ht
    · have ht' : isTerminal s = false := by
        cases h : isTerminal s
        · rfl
        · exact absurd h ht
      have hlt := lstep_pool_lt σ i s ht' hsz hnd
      show isTerminal (lotteryGo σ (i + 1) n (lstep σ i s)) = true
      refine ih (i + 1) (lstep σ i s) ?_ ?_ ?_
      · intro c hc
        exact hsz c (lstep_pool_subset σ i s c hc)
      · rw [lstep_caps_keys]
        exact hnd
      · omega

/-- Fixed input exhibiting a livelock: one chooser of size 2, one
alternative of capacity 1.  The alternative's demand (2) exceeds its
remaining capacity (1) in every iteration, yet the chooser is never
accepted, the capacity never reaches zero, and the pool never shrinks. -/
def c3sigma : Nat → Nat → Nat := fun _ _ => 0

def c3state : LState :=
  { pool := [⟨0, 2⟩], caps := [(0, 1)], result := [] }

theorem lstep_c3_fix (i : Nat) : lstep c3sigma i c3state = c3state := rfl

theorem lotteryGo_c3_fix (i n : Nat) :
    lotteryGo c3sigma i n c3state = c3state := by
  induction n generalizing i with
  | zero => rfl
  | succ n ih =>
    show lotteryGo c3sigma (i + 1) n (lstep c3sigma i c3state) = c3state
    rw [lstep_c3_fix]
    exact ih (i + 1)

/-- C3 counterexample: with a chooser of size 2 and a single alternative of
capacity 1 the constrained loop never halts -- no number of iterations
reaches a state where all choosers are matched or all capacity is
exhausted, even though the alternative's demand (2) meets or exceeds its
remaining capacity (1) in every iteration. -/
theorem C3_counterexample :
    ¬ ∃ n, isTerminal (lotteryGo c3sigma 0 n c3state) = true := by
  rintro ⟨n, h⟩
  rw [lotteryGo_c3_fix] at h
  exact absurd h (by decide)

/-- C3 (amended): in every iteration the pool of remaining choosers never
grows; and when every chooser has size 1 (the default when no
`chooser_size` column is given) and alternative ids are unique, the
iterative lottery halts within `|pool|` iterations, in a state where all
choosers are matched or all capacity is exhausted.  (With chooser sizes
larger than remaining capacities the loop need not halt; see the
counterexample.) -/
theorem C3_termination :
    (∀ (σ : Nat → Nat → Nat) (i : Nat) (s : LState),
        (lstep σ i s).pool.length ≤ s.pool.length) ∧
    (∀ (σ : Nat → Nat → Nat) (pool : List Chooser) (caps : List (Nat × Nat)),
        (∀ c ∈ pool, c.size = 1) → (caps.map Prod.fst).Nodup →
        isTerminal (lotteryGo σ 0 pool.length (initState pool caps)) = true) := by
  constructor
  · intro σ i s
    unfold lstep
    by_cases h1 : s.pool.isEmpty
    · simp [h1]
    · by_cases h2 : (availOf s.caps).isEmpty
      · simp [h1, h2]
      · simp only [h1, h2, Bool.false_eq_true, if_false]
        have hlen := matchGo_length (capLookup s.caps)
          (s.pool.map (fun c => (c, pickAlt (availOf s.caps) (σ i c.id))))
          (fun _ => 0)
        simp only [List.length_map] at hlen
        omega
  · intro σ pool caps hsz hnd
    exact lotteryGo_terminal_of_size_one σ pool.length 0
      (initState pool caps) hsz hnd (Nat.le_refl _)

/-- Witness for C3 (amended): a concrete size-1 run reaching termination. -/
theorem C3_termination_witness :
    isTerminal (lotteryGo (fun _ _ => 0) 0 2
      (initState [⟨0, 1⟩, ⟨1, 1⟩] [(5, 1), (6, 1)])) = true :=
  C3_termination.2 (fun _ _ => 0) [⟨0, 1⟩, ⟨1, 1⟩] [(5, 1), (6, 1)]
    (by decide) (by decide)

/-! ## Alternative sampler and estimation choice table

Modelled from the spec: the estimation choice table is built by
`choicemodels.tools.MergedChoiceTable` (constructed at
`models/large_multinomial_logit.py` lines 607-610 during `fit`), which is
external to this repository.  The model below follows spec section 4.1:
for each chooser draw `sample_size` alternatives uniformly at random
without replacement (the random draws are abstracted as oracles); in
estimation mode, if the chooser's recorded choice is not in the random
draw, replace one randomly chosen sampled row with the known choice; mark
the known choice `chosen=true` and all other rows `chosen=false`. -/

/-- Draw `k` alternatives without replacement; the oracle `σ` supplies the
random index for each successive draw.  Alternative identifiers are unique
(spec section 3), so removal by value matches removal by position. -/
def sampleWOR : (Nat → Nat) → Nat → List Nat → List Nat
  | _, 0, _ => []
  | _, _ + 1, [] => []
  | σ, k + 1, a :: alts =>
    let x := (a :: alts).getD (σ 0 % (a :: alts).length) 0
    x :: sampleWOR (fun n => σ (n + 1)) k ((a :: alts).erase x)

theorem getD_mem_of_lt (l : List Nat) (j : Nat) (h : j < l.length) :
    l.getD j 0 ∈ l := by
  rw [List.getD_eq_getElem?_getD, List.getElem?_eq_getElem h]
  exact List.getElem_mem h

theorem sampleWOR_subset (σ : Nat → Nat) (k : Nat) (alts : List Nat)
    (x : Nat) (hx : x ∈ sampleWOR σ k alts) : x ∈ alts := by
  induction k generalizing σ alts with
  | zero => simp [sampleWOR] at hx
  | succ k ih =>
    cases alts with
    | nil => simp [sampleWOR] at hx
    | cons a t =>
      simp only [sampleWOR, List.mem_cons] at hx
      rcases hx with h | h
      · rw [h]
        exact getD_mem_of_lt _ _ (Nat.mod_lt _ (by simp))
      · exact List.mem_of_mem_erase (ih _ _ h)

theorem sampleWOR_length (σ : Nat → Nat) (k : Nat) (alts : List Nat)
    (hk : k ≤ alts.length) : (sampleWOR σ k alts).length = k := by
  induction k generalizing σ alts with
  | zero => rfl
  | succ k ih =>
    cases alts with
    | nil => simp at hk
    | cons a t =>
      have hmem : (a :: t).getD (σ 0 % (a :: t).length) 0 ∈ a :: t :=
        getD_mem_of_lt _ _ (Nat.mod_lt _ (by simp))
      show ((a :: t).getD (σ 0 % (a :: t).length) 0 ::
        sampleWOR (fun n => σ (n + 1)) k
          ((a :: t).erase
            ((a :: t).getD (σ 0 % (a :: t).length) 0))).length = k + 1
      rw [List.length_cons, ih (fun n => σ (n + 1)) _ ?hle]
      case hle =>
        rw [List.length_erase_of_mem hmem]
        simp only [List.length_cons] at hk ⊢
        omega

theorem sampleWOR_nodup (σ : Nat → Nat) (k : Nat) (alts : List Nat)
    (hnd : alts.Nodup) : (sampleWOR σ k alts).Nodup := by
  induction k generalizing σ alts with
  | zero => simp [sampleWOR]
  | succ k ih =>
    cases alts with
    | nil => simp [sampleWOR]
    | cons a t =>
      simp only [sampleWOR, List.nodup_cons]
      constructor
      · intro hmem
        have hsub := sampleWOR_subset _ _ _ _ hmem
        have := hnd.mem_erase_iff.mp hsub
        exact this.1 rfl
      · exact ih _ _ (hnd.erase _)

/-- One chooser's estimation rows (alternative id, chosen flag), modelled
from spec section 4.1: `σ` drives the without-replacement draw, `r` is the
random position used when the known choice must be forced into the
sample. -/
def estRows (σ : Nat → Nat) (r : Nat) (k : Nat) (alts : List Nat)
    (known : Nat) : List (Nat × Bool) :=
  let draw := sampleWOR σ k alts
  if known ∈ draw then draw.map (fun a => (a, a == known))
  else (draw.set (r % k) known).map (fun a => (a, a == known))

/-- The merged estimation choice table: one row (chooser id, alternative
id, chosen flag) per chooser/sampled-alternative pair.  `choosers` pairs
each chooser id with its recorded choice. -/
def estTable (σ : Nat → Nat → Nat) (ρ : Nat → Nat) (k : Nat)
    (alts : List Nat) (choosers : List (Nat × Nat)) :
    List (Nat × Nat × Bool) :=
  choosers.flatMap (fun ch => (estRows (σ ch.1) (ρ ch.1) k alts ch.2).map
    (fun p => (ch.1, p.1, p.2)))

theorem count_map_chosen (l : List Nat) (known : Nat) :
    (l.map (fun a => (a, a == known))).countP (fun p => p.2) =
      l.count known := by
  rw [List.countP_map]
  rfl

theorem count_set_of_not_mem (l : List Nat) (p : Nat) (known : Nat)
    (hp : p < l.length) (hmem : known ∉ l) :
    (l.set p known).count known = 1 := by
  induction l generalizing p with
  | nil => simp at hp
  | cons a t ih =>
    cases p with
    | zero =>
      simp only [List.set]
      rw [List.count_cons]
      simp only [List.mem_cons, not_or] at hmem
      rw [List.count_eq_zero_of_not_mem hmem.2]
      simp
    | succ p =>
      simp only [List.set]
      rw [List.count_cons]
      simp only [List.mem_cons, not_or] at hmem
      rw [ih p (by simpa using hp) hmem.2]
      have : (a == known) = false := by
        simp only [beq_eq_false_iff_ne, ne_eq]
        intro h
        exact hmem.1 h.symm
      simp [this]

theorem estRows_length (σ : Nat → Nat) (r : Nat) (k : Nat) (alts : List Nat)
    (known : Nat) (hkm : k ≤ alts.length) :
    (estRows σ r k alts known).length = k := by
  unfold estRows
  by_cases h : known ∈ sampleWOR σ k alts
  · simp [h, sampleWOR_length σ k alts hkm]
  · simp [h, sampleWOR_length σ k alts hkm]

theorem estRows_one_chosen (σ : Nat → Nat) (r : Nat) (k : Nat)
    (alts : List Nat) (known : Nat) (hk : 1 ≤ k) (hkm : k ≤ alts.length)
    (hnd : alts.Nodup) :
    (estRows σ r k alts known).countP (fun p => p.2) = 1 := by
  unfold estRows
  by_cases h : known ∈ sampleWOR σ k alts
  · simp only [h, if_pos, count_map_chosen]
    exact List.count_eq_one_of_mem (sampleWOR_nodup σ k alts hnd) h
  · simp only [h, if_neg, not_false_iff, count_map_chosen]
    apply count_set_of_not_mem
    · rw [sampleWOR_length σ k alts hkm]
      exact Nat.mod_lt _ (by omega)
    · exact h

/-- C5: for every estimation call with `n` choosers, `m` alternatives with
unique ids, and alternative sample size `k` with `1 ≤ k < m`, the merged
estimation choice table has exactly `n * k` rows -- one per
chooser/sampled-alternative pair -- and within each chooser's group of `k`
rows exactly one row is marked `chosen = true`. -/
theorem C5_estimation_table (σ : Nat → Nat → Nat) (ρ : Nat → Nat) (k : Nat)
    (alts : List Nat) (choosers : List (Nat × Nat)) (hk : 1 ≤ k)
    (hkm : k < alts.length) (hnd : alts.Nodup) :
    (estTable σ ρ k alts choosers).length = choosers.length * k ∧
    (∀ ch ∈ choosers,
      (estRows (σ ch.1) (ρ ch.1) k alts ch.2).length = k ∧
      (estRows (σ ch.1) (ρ ch.1) k alts ch.2).countP (fun p => p.2) = 1) := by
  constructor
  · induction choosers with
    | nil => simp [estTable]
    | cons ch t ih =>
      simp only [estTable, List.flatMap_cons, List.length_append,
        List.length_map]
      rw [estRows_length _ _ _ _ _ (Nat.le_of_lt hkm)]
      show k + (estTable σ ρ k alts t).length = (t.length + 1) * k
      rw [ih]
      ring
  · intro ch _
    exact ⟨estRows_length _ _ _ _ _ (Nat.le_of_lt hkm),
      estRows_one_chosen _ _ _ _ _ hk (Nat.le_of_lt hkm) hnd⟩

/-- Witness for C5: 2 choosers, 3 alternatives, sample size 2. -/
theorem C5_estimation_table_witness :
    (estTable (fun _ _ => 0) (fun _ => 0) 2 [10, 11, 12]
        [(0, 11), (1, 12)]).length = 2 * 2 ∧
    (estRows (fun _ => 0) 0 2 [10, 11, 12] 11).countP (fun p => p.2) = 1 := by
  have h := C5_estimation_table (fun _ _ => 0) (fun _ => 0) 2 [10, 11, 12]
    [(0, 11), (1, 12)] (by decide) (by decide) (by decide)
  exact ⟨h.1, (h.2 (0, 11) (by decide)).2⟩

/-! ## Table model and the merge utilities of `utils.py`

A table is embedded as its index column names, data column names, and rows;
a row is an association list from column name to value, an absent entry
standing for a missing value (NaN).  Cell values are embedded as integers
(the claims under verification do not depend on floating-point cell
contents). -/

abbrev Row := List (String × Int)

structure DFrame where
  idx : List String
  cols : List String
  rows : List Row
deriving DecidableEq, Inhabited, Repr

/-- Embedding of `utils.all_cols`: all column names including index(es). -/
def all_cols (df : DFrame) : List String := df.idx ++ df.cols

/-- One row entry lookup. -/
def rowVal (r : Row) (c : String) : Option Int := r.lookup c

/-- Embedding of `utils.trim_cols`: limit a frame to columns appearing in a list of
names (membership-based, duplicates and unknown names ignored); indexes
are always retained; `none` keeps all columns. -/
def trim_cols (df : DFrame) (columns : Option (List String)) : DFrame :=
  match columns with
  | none => df
  | some cs =>
    let keep := df.cols.filter (fun c => c ∈ cs)
    { idx := df.idx, cols := keep,
      rows := df.rows.map (fun r =>
        r.filter (fun e => e.1 ∈ df.idx || e.1 ∈ keep)) }

/-- Embedding of `utils.get_df` for an in-memory frame: return the table limited to the
requested columns. -/
def get_df (df : DFrame) (columns : Option (List String)) : DFrame :=
  trim_cols df columns

inductive MergeError where
  | ambiguousColumnOverlap
  | noTarget
  | badInput
deriving DecidableEq, Repr

/-- Embedding of `pandas.DataFrame.join(source, on=keys, how='left')` as used by
`utils.merge_tables`: pandas refuses to join when the source's data
columns overlap the target's columns (no suffix is supplied, so
overlapping columns are never silently renamed or dropped); otherwise each
target row receives the source columns of the first source row whose key
entries match, or no entries when there is no match (missing values). -/
def joinTables (target source : DFrame) (keys : List String) :
    Except MergeError DFrame :=
  if (source.cols.filter (fun c => c ∈ target.cols)) ≠ [] then
    .error .ambiguousColumnOverlap
  else .ok
    { idx := target.idx,
      cols := target.cols ++ source.cols,
      rows := target.rows.map (fun r =>
        match source.rows.find? (fun s =>
            keys.all (fun k => rowVal s k == rowVal r k)) with
        | some s => r ++ source.cols.filterMap (fun c =>
            (rowVal s c).map (fun v => (c, v)))
        | none => r) }

/-- The backward search for a merge target in `utils.merge_tables`: the
highest position (among all tables but the source) whose columns-plus-
indexes contain all the join keys. -/
def findTargetFrom (keys : List String) (ts : List DFrame) : Option Nat :=
  (List.range ts.length).reverse.find? (fun i =>
    keys.all (fun k => k ∈ all_cols (ts.getD i default)))

/-- The `while len(tables) > 1` loop of `utils.merge_tables`; `fuel`
bounds the recursion (each pass removes one table, so `ts.length` fuel
suffices).  A call with fewer than two tables is an error (the Python
code would raise `NameError`: `merged` is never assigned). -/
def mergeLoop : Nat → List DFrame → Option (List String) →
    Except MergeError DFrame
  | 0, _, _ => .error .badInput
  | fuel + 1, ts, columns =>
    if ts.length ≤ 1 then .error .badInput
    else
      let source := get_df (ts.getLastD default) columns
      let keys := source.idx
      let rest := ts.dropLast
      match findTargetFrom keys rest with
      | none => .error .noTarget
      | some i =>
        let target := get_df (rest.getD i default)
          (columns.map (fun cs => cs ++ keys))
        match joinTables target source keys with
        | .error e => .error e
        | .ok merged =>
          let ts' := rest.set i merged
          if ts'.length ≤ 1 then .ok (trim_cols merged columns)
          else mergeLoop fuel ts' columns

/-- Embedding of `utils.merge_tables`. -/
def merge_tables (ts : List DFrame) (columns : Option (List String)) :
    Except MergeError DFrame :=
  mergeLoop ts.length ts columns

/-- C6: merging a chooser-side and an alternative-side feature table whose
non-key data columns collide fails fast with the ambiguous-column-overlap
error before any merged output is produced (the result is the error alone;
`merge_tables` is pure, so no state is mutated); and with no collision the
merge succeeds with every column of both tables present under its original
name -- overlapping columns are never silently renamed or dropped. -/
theorem C6_merge_overlap (t s : DFrame)
    (hkeys : s.idx.all (fun k => k ∈ all_cols t) = true) :
    ((s.cols.filter (fun c => c ∈ t.cols)) ≠ [] →
      merge_tables [t, s] none = .error .ambiguousColumnOverlap) ∧
    ((s.cols.filter (fun c => c ∈ t.cols)) = [] →
      ∃ m, merge_tables [t, s] none = .ok m ∧
        m.idx = t.idx ∧ m.cols = t.cols ++ s.cols) := by
  have hfind : findTargetFrom s.idx [t] = some 0 := by
    simp [findTargetFrom, List.find?, hkeys]
  have hbase : merge_tables [t, s] none =
      match joinTables t s s.idx with
      | .error e => .error e
      | .ok merged => .ok merged := by
    show mergeLoop 2 [t, s] none = _
    simp only [mergeLoop]
    norm_num
    rw [show get_df s none = s from rfl, hfind]
    rfl
  constructor
  · intro hov
    rw [hbase]
    unfold joinTables
    rw [if_pos hov]
  · intro hov
    rw [hbase]
    unfold joinTables
    rw [if_neg (by simp [hov])]
    exact ⟨_, rfl, rfl, rfl⟩

/-- Witness for C6: two single-column tables sharing the column name
`size` collide; renaming the source column makes the merge succeed. -/
theorem C6_merge_overlap_witness :
    (merge_tables
      [⟨["obs_id"], ["size", "alt_id"], []⟩,
       ⟨["alt_id"], ["size"], []⟩] none =
      .error .ambiguousColumnOverlap) ∧
    (∃ m, merge_tables
      [⟨["obs_id"], ["cap", "alt_id"], []⟩,
       ⟨["alt_id"], ["size"], []⟩] none = .ok m ∧
      m.idx = ["obs_id"] ∧ m.cols = ["cap", "alt_id", "size"]) := by
  constructor
  · exact (C6_merge_overlap ⟨["obs_id"], ["size", "alt_id"], []⟩
      ⟨["alt_id"], ["size"], []⟩ (by decide)).1 (by decide)
  · exact (C6_merge_overlap ⟨["obs_id"], ["cap", "alt_id"], []⟩
      ⟨["alt_id"], ["size"], []⟩ (by decide)).2 (by decide)

/-! ## `utils.get_data` -/

/-- A table argument: a single table or a list of tables to merge
(`get_data` branches on `isinstance(tables, list)`). -/
inductive TablesSpec where
  | one (df : DFrame)
  | many (ts : List DFrame)

/-- A model expression, embedded as the set of column names it references
(`urbansim.models.util.columns_in_formula` is the external helper that
extracts them). -/
structure Expression where
  cols : List String
deriving DecidableEq, Repr

/-- A `pd.DataFrame.query()` filter string, embedded as the predicate it
denotes together with the column names it references
(`urbansim.models.util.columns_in_filters` extracts the latter). -/
structure QFilter where
  cols : List String
  pred : Row → Bool

def columns_in_formula : Option Expression → List String
  | none => []
  | some e => e.cols

def columns_in_filters (fs : Option (List QFilter)) : List String :=
  (fs.getD []).flatMap (fun f => f.cols)

/-- Embedding of `urbansim.models.util.apply_filter_query`: keep the rows matching
every filter. -/
def apply_filter_query (df : DFrame) (fs : Option (List QFilter)) : DFrame :=
  { df with
    rows := df.rows.filter (fun r => (fs.getD []).all (fun f => f.pred r)) }

def resolveTables : Option TablesSpec → Option TablesSpec → Option TablesSpec
  | none, fb => fb
  | some t, _ => some t

/-- Embedding of `utils.get_data`: resolve the table parameter against its fallback,
compute the column set to retain (all columns when both the model
expression and the extra columns are absent), load or merge the tables
limited to those columns, and apply the filters. -/
def get_data (tables fallback_tables : Option TablesSpec)
    (filters : Option (List QFilter)) (model_expression : Option Expression)
    (extra_columns : Option (List String)) : Except MergeError DFrame :=
  let colnames : Option (List String) :=
    if model_expression = none ∧ extra_columns = none then none
    else some (columns_in_formula model_expression ++
      columns_in_filters filters ++ extra_columns.getD [])
  match resolveTables tables fallback_tables with
  | none => .error .badInput
  | some (.one df) => .ok (apply_filter_query (get_df df colnames) filters)
  | some (.many ts) =>
    match merge_tables ts colnames with
    | .error e => .error e
    | .ok df => .ok (apply_filter_query df filters)

theorem trim_cols_sub (df : DFrame) (cs : List String) :
    ∀ c ∈ (trim_cols df (some cs)).cols, c ∈ cs := by
  intro c hc
  simp only [trim_cols] at hc
  have := List.mem_filter.mp hc
  simpa using this.2

theorem mergeLoop_cols_sub (fuel : Nat) :
    ∀ (ts : List DFrame) (cs : List String) (m : DFrame),
      mergeLoop fuel ts (some cs) = .ok m → ∀ c ∈ m.cols, c ∈ cs := by
  induction fuel with
  | zero =>
    intro ts cs m h
    simp [mergeLoop] at h
  | succ fuel ih =>
    intro ts cs m h
    simp only [mergeLoop] at h
    split at h
    · simp at h
    · split at h
      · simp at h
      · split at h
        · simp at h
        · split at h
          · simp only [Except.ok.injEq] at h
            rw [← h]
            exact trim_cols_sub _ cs
          · exact ih _ _ _ h

theorem apply_filter_rows (df : DFrame) (fs : Option (List QFilter)) :
    ∀ r ∈ (apply_filter_query df fs).rows, ∀ f ∈ fs.getD [],
      f.pred r = true := by
  intro r hr f hf
  simp only [apply_filter_query] at hr
  have := List.mem_filter.mp hr
  have hall := List.all_eq_true.mp this.2
  exact hall f hf

/-- C8: whenever `get_data` returns a table, every returned row satisfies
all of the given filters; when a model expression or extra columns are
given, every returned column appears in the model expression, in the
filters, or in the extra-columns list; and when both the model expression
and the extra columns are absent (and a single table is drawn from), all
of the table's columns are returned. -/
theorem C8_get_data (tables fallback_tables : Option TablesSpec)
    (filters : Option (List QFilter)) (expr : Option Expression)
    (extra : Option (List String)) (df : DFrame)
    (h : get_data tables fallback_tables filters expr extra = .ok df) :
    (∀ r ∈ df.rows, ∀ f ∈ filters.getD [], f.pred r = true) ∧
    (¬ (expr = none ∧ extra = none) →
      ∀ c ∈ df.cols, c ∈ columns_in_formula expr ++
        columns_in_filters filters ++ extra.getD []) ∧
    (expr = none → extra = none → ∀ t,
      resolveTables tables fallback_tables = some (.one t) →
      df.cols = t.cols) := by
  simp only [get_data] at h
  split at h
  · simp at h
  · rename_i d heq
    simp only [Except.ok.injEq] at h
    subst h
    refine ⟨apply_filter_rows _ _, ?_, ?_⟩
    · intro hne c hc
      rw [if_neg hne] at hc
      simp only [apply_filter_query] at hc
      exact trim_cols_sub d _ c hc
    · intro he hx t ht
      rw [heq] at ht
      simp only [Option.some.injEq, TablesSpec.one.injEq] at ht
      subst ht
      rw [if_pos ⟨he, hx⟩]
      rfl
  · rename_i ts heq
    split at h
    · simp at h
    · rename_i md hm
      simp only [Except.ok.injEq] at h
      subst h
      refine ⟨apply_filter_rows _ _, ?_, ?_⟩
      · intro hne c hc
        rw [if_neg hne] at hm
        simp only [apply_filter_query] at hc
        exact mergeLoop_cols_sub ts.length ts _ md hm c hc
      · intro _ _ t ht
        rw [heq] at ht
        simp at ht

def c8table : DFrame :=
  ⟨["id"], ["x", "y"],
    [[("id", 1), ("x", 5), ("y", 0)], [("id", 2), ("x", 3), ("y", 1)]]⟩

def c8filter : QFilter := ⟨["y"], fun r => rowVal r "y" == some 0⟩

def c8out : DFrame := ⟨["id"], ["x", "y"], [[("id", 1), ("x", 5), ("y", 0)]]⟩

/-- Witness for C8: a concrete `get_data` call whose surviving row passes
the filter. -/
theorem C8_get_data_witness :
    c8filter.pred [("id", 1), ("x", 5), ("y", 0)] = true :=
  (C8_get_data (some (.one c8table)) none (some [c8filter]) (some ⟨["x"]⟩)
      none c8out rfl).1
    [("id", 1), ("x", 5), ("y", 0)] (by decide) c8filter
    (List.mem_singleton.mpr rfl)

/-! ## Orca tables and `utils.update_column` -/

/-- A stored (typed) column of an Orca table: a dtype tag and values keyed
by index value. -/
structure OColumn where
  dtype : String
  vals : List (Nat × Int)
deriving DecidableEq, Repr

/-- An Orca table: a named unique index and named typed columns. -/
structure OTable where
  idxName : String
  index : List Nat
  columns : List (String × OColumn)
deriving DecidableEq, Repr

/-- The Orca registry: named tables. -/
abbrev World := List (String × OTable)

/-- A `pd.Series` of result data keyed by chooser id. -/
structure Series where
  dtype : String
  vals : List (Nat × Int)
deriving DecidableEq, Repr

/-- Orca table materialization (`to_frame`): one row per index value,
carrying the index entry and the value of each column at that index
(columns with no value at an index contribute a missing entry). -/
def OTable.toDFrame (t : OTable) : DFrame :=
  { idx := [t.idxName],
    cols := t.columns.map Prod.fst,
    rows := t.index.map (fun i =>
      (t.idxName, Int.ofNat i) :: t.columns.filterMap (fun c =>
        (c.2.vals.lookup i).map (fun v => (c.1, v)))) }

/-- A `str` or `list of str` table argument (`update_column` and the
`run()` table parameters accept either). -/
inductive TableArg where
  | one (name : String)
  | many (names : List String)
deriving DecidableEq, Repr

/-- The table-resolution steps of `utils.update_column`: `None` falls back
to the fallback table, and a list is replaced by its first element. -/
def resolveName : Option TableArg → Option TableArg → Option String
  | some (.one n), _ => some n
  | some (.many l), _ => l.head?
  | none, some (.one n) => some n
  | none, some (.many l) => l.head?
  | none, none => none

def resolveColumn : Option String → Option String → Option String
  | some c, _ => some c
  | none, fb => fb

/-- Embedding of `orca.DataFrameWrapper.update_col_from_series(column, data, cast=True)`:
update the existing column's values at the data's index labels, casting
each new value to the column's existing dtype (`castV` is the
dtype-directed cast, a parameter of the embedding); the dtype is kept. -/
def update_col_from_series (castV : String → Int → Int) (col : OColumn)
    (data : Series) : OColumn :=
  { dtype := col.dtype,
    vals := col.vals.map (fun p =>
      match data.vals.lookup p.1 with
      | some v => (p.1, castV col.dtype v)
      | none => p) }

/-- Replace a named table in the registry. -/
def worldSet (world : World) (n : String) (t : OTable) : World :=
  world.map (fun p => if p.1 = n then (n, t) else p)

/-- Embedding of `utils.update_column`: resolve the table (first element of a list,
fallback when `None`) and the column (fallback when `None`); if the column
does not exist in the wrapped table, add it holding the data; otherwise
update it with the data cast to the existing dtype.  An unresolvable table
or column, or an unregistered table name, is a Python-level error. -/
def update_column (castV : String → Int → Int) (world : World)
    (table fallback_table : Option TableArg)
    (column fallback_column : Option String) (data : Series) :
    Except String World :=
  match resolveName table fallback_table with
  | none => .error "no table"
  | some tname =>
    match resolveColumn column fallback_column with
    | none => .error "no column"
    | some c =>
      match world.lookup tname with
      | none => .error "table not registered"
      | some tbl =>
        if (tbl.columns.lookup c).isSome then
          .ok (worldSet world tname { tbl with
            columns := tbl.columns.map (fun p =>
              if p.1 = c then (p.1, update_col_from_series castV p.2 data)
              else p) })
        else
          .ok (worldSet world tname { tbl with
            columns := tbl.columns ++ [(c, ⟨data.dtype, data.vals⟩)] })

theorem lookup_cons_eq {β : Type} (a : String) (p : String × β)
    (l : List (String × β)) (hb : (a == p.1) = true) :
    List.lookup a (p :: l) = some p.2 := by
  simp [List.lookup, hb]

theorem lookup_cons_ne {β : Type} (a : String) (p : String × β)
    (l : List (String × β)) (hb : (a == p.1) = false) :
    List.lookup a (p :: l) = List.lookup a l := by
  simp [List.lookup, hb]

theorem worldSet_cons_eq (p : String × OTable) (w : World) (n : String)
    (t : OTable) (hp : p.1 = n) :
    worldSet (p :: w) n t = (n, t) :: worldSet w n t := by
  simp [worldSet, hp]

theorem worldSet_cons_ne (p : String × OTable) (w : World) (n : String)
    (t : OTable) (hp : ¬ p.1 = n) :
    worldSet (p :: w) n t = p :: worldSet w n t := by
  simp [worldSet, hp]

theorem worldSet_lookup (world : World) (n : String) (t t0 : OTable)
    (h : world.lookup n = some t0) :
    (worldSet world n t).lookup n = some t := by
  induction world with
  | nil => simp [List.lookup] at h
  | cons p w ih =>
    by_cases hp : p.1 = n
    · rw [worldSet_cons_eq p w n t hp]
      exact lookup_cons_eq n (n, t) _ (by simp)
    · have hb : (n == p.1) = false := by
        simp only [beq_eq_false_iff_ne, ne_eq]
        intro hq
        exact hp hq.symm
      rw [worldSet_cons_ne p w n t hp, lookup_cons_ne n p _ hb]
      rw [lookup_cons_ne n p w hb] at h
      exact ih h

theorem lookup_append_new (cols : List (String × OColumn)) (c : String)
    (v : OColumn) (h : cols.lookup c = none) :
    (cols ++ [(c, v)]).lookup c = some v := by
  induction cols with
  | nil => simp [List.lookup]
  | cons p t ih =>
    cases hb : (c == p.1) with
    | true =>
      rw [lookup_cons_eq c p t hb] at h
      simp at h
    | false =>
      rw [lookup_cons_ne c p t hb] at h
      rw [List.cons_append, lookup_cons_ne c p _ hb]
      exact ih h

theorem lookup_map_update (cols : List (String × OColumn)) (c : String)
    (f : OColumn → OColumn) :
    (cols.map (fun p => if p.1 = c then (p.1, f p.2) else p)).lookup c =
      (cols.lookup c).map f := by
  induction cols with
  | nil => simp [List.lookup]
  | cons p t ih =>
    by_cases hp : p.1 = c
    · have h1 : (p :: t).map (fun q => if q.1 = c then (q.1, f q.2) else q) =
          (p.1, f p.2) :: t.map (fun q => if q.1 = c then (q.1, f q.2) else q) := by
        simp [if_pos hp]
      rw [h1, lookup_cons_eq c (p.1, f p.2) _ (by simp [hp]),
        lookup_cons_eq c p t (by simp [hp])]
      rfl
    · have hb : (c == p.1) = false := by
        simp only [beq_eq_false_iff_ne, ne_eq]
        intro hq
        exact hp hq.symm
      have h1 : (p :: t).map (fun q => if q.1 = c then (q.1, f q.2) else q) =
          p :: t.map (fun q => if q.1 = c then (q.1, f q.2) else q) := by
        simp [if_neg hp]
      rw [h1, lookup_cons_ne c p _ hb, lookup_cons_ne c p t hb]
      exact ih

/-! ## The `LargeMultinomialLogitStep` object and its `run()` method

The object's configuration parameters are the attributes written by
`__init__` / the property setters and serialized by `to_dict`; the three
diagnostic attributes (`mergedchoicetable`, `probabilities`, `choices`)
are cleared at the start of every `run()`.  `run()` reads only the
configuration (plus the fitted `model`), so it is embedded as a function
of the configuration; external collaborators (the Orca registry, the
estimator's `probabilities`, the random draws, the `choicemodels`
samplers) are supplied through a `RunEnv`. -/

/-- A merged choice table in simulation mode: one row per (chooser id,
alternative id) pair with the merged feature entries. -/
structure MCT where
  rows : List (Nat × Nat × Row)
deriving DecidableEq, Repr

/-- Probabilities of the sampled alternatives, grouped per chooser. -/
abbrev ProbVec := List (Nat × List (Nat × Rat))

/-- Embedding of `choicemodels.MultinomialLogitResults(model_expression,
fitted_parameters)` as rebuilt by `from_dict`; its `probabilities` method
is an external black box (supplied by `RunEnv.probsFn`). -/
structure MNLModel where
  model_expression : Option Expression
  fitted_parameters : List Int
deriving DecidableEq, Repr

/-- The `mct_intx_ops` specification: only the `extra_obs_cols` /
`extra_alts_cols` entries are read by `run()` itself; the table
operations of `perform_mct_intx_ops` are applied through an oracle. -/
structure IntxOps where
  extra_obs_cols : List String
  extra_alts_cols : List String
deriving DecidableEq, Repr

/-- The configuration attributes of a `LargeMultinomialLogitStep`
(everything except the three per-run diagnostic attributes).  Fitted
coefficients are embedded as integers; the claims under verification do
not compute with their values. -/
structure LMLConfig where
  choosers : Option TableArg
  alternatives : Option TableArg
  model_expression : Option Expression
  choice_column : Option String
  chooser_filters : Option (List QFilter)
  chooser_sample_size : Option Nat
  alt_filters : Option (List QFilter)
  alt_sample_size : Option Nat
  out_choosers : Option TableArg
  out_alternatives : Option TableArg
  out_column : Option String
  out_chooser_filters : Option (List QFilter)
  out_alt_filters : Option (List QFilter)
  constrained_choices : Bool
  alt_capacity : Option String
  chooser_size : Option String
  max_iter : Option Nat
  mct_intx_ops : Option IntxOps
  name : Option String
  tags : List String
  summary_table : Option String
  fitted_parameters : Option (List Int)
  model : Option MNLModel

/-- The full object state: configuration plus the diagnostic attributes
filled in by `run()`. -/
structure LMLStep where
  config : LMLConfig
  mergedchoicetable : Option MCT
  probabilities : Option ProbVec
  choices : Option (List (Nat × Nat))

/-- One recorded call to `utils.update_column` (the run write-back),
with the arguments exactly as passed. -/
structure UpdateCall where
  table : Option TableArg
  fallback_table : Option TableArg
  column : Option String
  fallback_column : Option String
  data : List (Nat × Nat)
deriving DecidableEq, Repr

structure RunEffects where
  printed : List String
  updates : List UpdateCall
deriving DecidableEq, Repr

inductive RunError where
  | dataError (e : MergeError)
  | noModel
deriving DecidableEq, Repr

/-- External collaborators of `run()`: the Orca registry, the estimator
black box, the seeded random draws, and the `choicemodels` machinery
abstracted as oracles.  Two runs with the same seed and data share the
same `RunEnv`. -/
structure RunEnv where
  world : World
  sampler : Nat → Nat → Nat
  rand : Nat → Rat
  lotteryOracle : Nat → Nat → Nat
  lotteryFuel : Nat
  probsFn : MNLModel → MCT → ProbVec
  intxFn : IntxOps → MCT → MCT

/-- Embedding of `utils.to_list` restricted to the optional column-name parameters of
`run()` (in Python `to_list(None) = [None]`, and a `None` entry in a
column list never matches a real column, so it is dropped here). -/
def optToList : Option String → List String
  | none => []
  | some s => [s]

/-- The extra observation columns requested by `run()`: the chooser-size
column plus any `extra_obs_cols` from the `mct_intx_ops` spec
(`interaction_terms` is not passed in the embedded call). -/
def obsExtraCols (cfg : LMLConfig) : List String :=
  optToList cfg.chooser_size ++
    (match cfg.mct_intx_ops with
     | some ops => ops.extra_obs_cols
     | none => [])

def altsExtraCols (cfg : LMLConfig) : List String :=
  optToList cfg.alt_capacity ++
    (match cfg.mct_intx_ops with
     | some ops => ops.extra_alts_cols
     | none => [])

/-- The step `if tables is None: tables = fallback_tables` at the level of the
named-table parameters. -/
def resolveTableArg : Option TableArg → Option TableArg → Option TableArg
  | none, fb => fb
  | some t, _ => some t

def frameOfE (world : World) (n : String) : Except MergeError DFrame :=
  match world.lookup n with
  | some t => .ok t.toDFrame
  | none => .error .badInput

/-- Load the named table(s) from the Orca registry as data frames. -/
def tablesOf (world : World) : Option TableArg →
    Except MergeError (Option TablesSpec)
  | none => .ok none
  | some (.one n) => (frameOfE world n).map (fun d => some (.one d))
  | some (.many l) => (l.mapM (frameOfE world)).map (fun ds => some (.many ds))

/-- Embedding of `utils.get_data` as called from `run()`: resolve the table names
against the fallback, load them from Orca, and delegate. -/
def get_data_orca (world : World) (tables fallback : Option TableArg)
    (filters : Option (List QFilter)) (expr : Option Expression)
    (extra : Option (List String)) : Except MergeError DFrame :=
  match tablesOf world (resolveTableArg tables fallback) with
  | .error e => .error e
  | .ok spec => get_data spec none filters expr extra

/-- The id of a row: the value of the (single) index column. -/
def rowKey (df : DFrame) (r : Row) : Nat :=
  ((rowVal r (df.idx.headD "")).getD 0).toNat

/-- A chooser's size: the value of the `chooser_size` column, or 1 when no
column is configured (spec: default 1). -/
def sizeOfRow (col : Option String) (r : Row) : Nat :=
  match col with
  | none => 1
  | some c => ((rowVal r c).getD 1).toNat

/-- An alternative's capacity: the value of the `alt_capacity` column, or
1 when no column is configured (spec: default 1). -/
def capOfRow (col : Option String) (r : Row) : Nat :=
  match col with
  | none => 1
  | some c => ((rowVal r c).getD 1).toNat

/-- Modelled from the spec: `choicemodels.tools.MergedChoiceTable` in
simulation mode (external to this repository) -- for each chooser, draw
`sample_size` alternatives without replacement (all alternatives when no
sample size is configured) and emit one row per pair with the merged
feature entries. -/
def buildMCT (sampler : Nat → Nat → Nat) (sampleSize : Option Nat)
    (obs alts : DFrame) : MCT :=
  let altIds := alts.rows.map (fun r => rowKey alts r)
  { rows := obs.rows.flatMap (fun r =>
      let oid := rowKey obs r
      let draw := match sampleSize with
        | none => altIds
        | some k => sampleWOR (sampler oid) k altIds
      draw.map (fun a => (oid, a,
        r ++ (match alts.rows.find? (fun ar => rowKey alts ar == a) with
          | some ar => ar
          | none => [])))) }

/-- Modelled from the spec: the cumulative-probability walk of the choice
simulator (spec section 4.4) -- select the first alternative whose
cumulative probability exceeds the draw, with the last alternative always
selectable (the clamp for floating-point drift). -/
def pickCum (r : Rat) : Rat → List (Nat × Rat) → Nat
  | _, [] => 0
  | _, [(a, _)] => a
  | acc, (a, p) :: q :: rest =>
    if r < acc + p then a else pickCum r (acc + p) (q :: rest)

/-- Modelled from the spec: `choicemodels.tools.monte_carlo_choices`
(external to this repository) -- one uniform draw per chooser, walked
against that chooser's probability group. -/
def monte_carlo_choices (rand : Nat → Rat) (probs : ProbVec) :
    List (Nat × Nat) :=
  probs.map (fun g => (g.1, pickCum (rand g.1) 0 g.2))

/-- The three diagnostic attributes produced by one `run()` call. -/
structure Diag where
  mct : Option MCT
  probs : Option ProbVec
  choices : Option (List (Nat × Nat))

/-- The body of `run()` (`large_multinomial_logit.py` lines 658-763),
as a function of the configuration: clear the diagnostics, load the
filtered chooser and alternative data (short-circuiting with a printed
notice when either is empty), drop the columns not referenced by the
model expression or the extra columns, then simulate -- through the
iterative lottery when `constrained_choices` is set, otherwise through a
single merged choice table, the estimator's probabilities and the
Monte-Carlo simulator -- and finally record the `update_column`
write-back of the choices.  Errors raised by collaborators leave the
diagnostics cleared and nothing written. -/
def runCoreAux (env : RunEnv) (cfg : LMLConfig) :
    Diag × RunEffects × Option RunError :=
  match get_data_orca env.world cfg.out_choosers cfg.choosers
      cfg.out_chooser_filters cfg.model_expression
      (some (obsExtraCols cfg)) with
  | .error e => (⟨none, none, none⟩, ⟨[], []⟩, some (.dataError e))
  | .ok observations =>
    if observations.rows.length = 0 then
      (⟨none, none, none⟩, ⟨["No valid choosers"], []⟩, none)
    else
      match get_data_orca env.world cfg.out_alternatives cfg.alternatives
          cfg.out_alt_filters cfg.model_expression
          (some (altsExtraCols cfg)) with
      | .error e => (⟨none, none, none⟩, ⟨[], []⟩, some (.dataError e))
      | .ok alternatives =>
        if alternatives.rows.length = 0 then
          (⟨none, none, none⟩, ⟨["No valid alternatives"], []⟩, none)
        else
          let exprCols := columns_in_formula cfg.model_expression
          let obs := trim_cols observations
            (some (exprCols ++ obsExtraCols cfg))
          let alts := trim_cols alternatives
            (some (exprCols ++ altsExtraCols cfg))
          match cfg.model with
          | none => (⟨none, none, none⟩, ⟨[], []⟩, some .noModel)
          | some model =>
            if cfg.constrained_choices then
              let pool := obs.rows.map (fun r =>
                Chooser.mk (rowKey obs r) (sizeOfRow cfg.chooser_size r))
              let caps := alts.rows.map (fun r =>
                (rowKey alts r, capOfRow cfg.alt_capacity r))
              let fuel := match cfg.max_iter with
                | some k => k
                | none => env.lotteryFuel
              let ch := (iterative_lottery_choices env.lotteryOracle fuel
                pool caps).map (fun p => (p.1.id, p.2))
              (⟨none, none, some ch⟩,
               ⟨[], [⟨cfg.out_choosers, cfg.choosers, cfg.out_column,
                 cfg.choice_column, ch⟩]⟩, none)
            else
              let mct0 := buildMCT env.sampler cfg.alt_sample_size obs alts
              let mct := match cfg.mct_intx_ops with
                | some ops => env.intxFn ops mct0
                | none => mct0
              let probs := env.probsFn model mct
              let ch := monte_carlo_choices env.rand probs
              (⟨some mct, some probs, some ch⟩,
               ⟨[], [⟨cfg.out_choosers, cfg.choosers, cfg.out_column,
                 cfg.choice_column, ch⟩]⟩, none)

def runCore (env : RunEnv) (cfg : LMLConfig) :
    LMLStep × RunEffects × Option RunError :=
  let r := runCoreAux env cfg
  (⟨cfg, r.1.mct, r.1.probs, r.1.choices⟩, r.2)

/-- Embedding of `LargeMultinomialLogitStep.run()`: returns the new object state, the
observable effects (printed notices, `update_column` calls) and the error
outcome, as a function of the previous state. -/
def runStep (env : RunEnv) (s : LMLStep) :
    LMLStep × RunEffects × Option RunError :=
  runCore env s.config

/-- The diagnostic-clearing prologue of `run()` (lines 663-666). -/
def clearDiag (s : LMLStep) : LMLStep :=
  { s with mergedchoicetable := none, probabilities := none, choices := none }

/-- The post-filter chooser table of a run is empty (the condition of the
`if len(observations) == 0` short-circuit). -/
def obsEmptyB (env : RunEnv) (cfg : LMLConfig) : Bool :=
  match get_data_orca env.world cfg.out_choosers cfg.choosers
      cfg.out_chooser_filters cfg.model_expression
      (some (obsExtraCols cfg)) with
  | .ok d => decide (d.rows.length = 0)
  | .error _ => false

/-- The post-filter chooser table is non-empty but the post-filter
alternative table is empty (the condition of the second short-circuit). -/
def altsEmptyB (env : RunEnv) (cfg : LMLConfig) : Bool :=
  (match get_data_orca env.world cfg.out_choosers cfg.choosers
      cfg.out_chooser_filters cfg.model_expression
      (some (obsExtraCols cfg)) with
   | .ok d => decide (¬ d.rows.length = 0)
   | .error _ => false) &&
  (match get_data_orca env.world cfg.out_alternatives cfg.alternatives
      cfg.out_alt_filters cfg.model_expression
      (some (altsExtraCols cfg)) with
   | .ok d => decide (d.rows.length = 0)
   | .error _ => false)

/-- C2: when the output filters leave the chooser table (or the
alternative table) empty, `run()` returns normally: no error, no
`update_column` call, no external effect other than the printed notice,
and the object state is only the diagnostic-cleared previous state. -/
theorem C2_empty_short_circuit (env : RunEnv) (s : LMLStep) :
    (obsEmptyB env s.config = true →
      runStep env s = (clearDiag s, ⟨["No valid choosers"], []⟩, none)) ∧
    (altsEmptyB env s.config = true →
      runStep env s = (clearDiag s, ⟨["No valid alternatives"], []⟩, none)) := by
  constructor
  · intro h
    unfold obsEmptyB at h
    cases hg : get_data_orca env.world s.config.out_choosers s.config.choosers
        s.config.out_chooser_filters s.config.model_expression
        (some (obsExtraCols s.config)) with
    | error e => rw [hg] at h; simp at h
    | ok d =>
      rw [hg] at h
      simp only [decide_eq_true_eq] at h
      show runCore env s.config = _
      unfold runCore runCoreAux
      simp only [hg, h]
      rfl
  · intro h
    unfold altsEmptyB at h
    rw [Bool.and_eq_true] at h
    cases hg : get_data_orca env.world s.config.out_choosers s.config.choosers
        s.config.out_chooser_filters s.config.model_expression
        (some (obsExtraCols s.config)) with
    | error e => rw [hg] at h; simp at h
    | ok d =>
      rw [hg] at h
      obtain ⟨h1, h2⟩ := h
      simp only [decide_eq_true_eq] at h1
      cases hg2 : get_data_orca env.world s.config.out_alternatives
          s.config.alternatives s.config.out_alt_filters
          s.config.model_expression (some (altsExtraCols s.config)) with
      | error e => rw [hg2] at h2; simp at h2
      | ok d2 =>
        rw [hg2] at h2
        simp only [decide_eq_true_eq] at h2
        show runCore env s.config = _
        unfold runCore runCoreAux
        simp only [hg, hg2, h2, if_neg h1]
        rfl

def c2cfg : LMLConfig :=
  { choosers := some (.one "hh"), alternatives := some (.one "bld"),
    model_expression := some ⟨["x"]⟩, choice_column := some "b_id",
    chooser_filters := none, chooser_sample_size := none,
    alt_filters := none, alt_sample_size := none,
    out_choosers := none, out_alternatives := none, out_column := none,
    out_chooser_filters := none, out_alt_filters := none,
    constrained_choices := false, alt_capacity := none, chooser_size := none,
    max_iter := none, mct_intx_ops := none, name := none, tags := [],
    summary_table := none, fitted_parameters := none, model := none }

def c2env : RunEnv :=
  ⟨[("hh", ⟨"hh_id", [], []⟩), ("bld", ⟨"b_id", [7], []⟩)],
   fun _ _ => 0, fun _ => 0, fun _ _ => 0, 0, fun _ _ => [], fun _ m => m⟩

def c2s : LMLStep := ⟨c2cfg, none, none, none⟩

/-- Witness for C2: a run over a registry whose chooser table has no rows
returns the notice and no write. -/
theorem C2_empty_short_circuit_witness :
    obsEmptyB c2env c2cfg = true ∧
    runStep c2env c2s = (clearDiag c2s, ⟨["No valid choosers"], []⟩, none) :=
  ⟨rfl, (C2_empty_short_circuit c2env c2s).1 rfl⟩

/-- C4: `run()` is a function of the configuration and the external
environment alone -- the object retains no internal state between calls.
In particular a second unconstrained call on the state left by a first
call, with the same seed/environment and data, yields the identical
result (state, printed output, write-back, and error outcome), and the
configuration is untouched. -/
theorem C4_run_determinism (env : RunEnv) (s : LMLStep)
    (_hun : s.config.constrained_choices = false) :
    runStep env (runStep env s).1 = runStep env s ∧
    (runStep env s).1.config = s.config :=
  ⟨rfl, rfl⟩

def c4env : RunEnv :=
  ⟨[], fun _ _ => 0, fun _ => 0, fun _ _ => 0, 0, fun _ _ => [], fun _ m => m⟩

def c4cfg : LMLConfig :=
  ⟨none, none, none, none, none, none, none, none, none, none, none, none,
   none, false, none, none, none, none, none, [], none, none, none⟩

def c4s : LMLStep := ⟨c4cfg, none, none, none⟩

/-- Witness for C4: a concrete unconstrained step. -/
theorem C4_run_determinism_witness :
    c4cfg.constrained_choices = false ∧
    runStep c4env (runStep c4env c4s).1 = runStep c4env c4s :=
  ⟨rfl, (C4_run_determinism c4env c4s rfl).1⟩

/-- C10: every `run()` call leaves all configuration attributes unchanged
and first resets the three diagnostics; after a constrained run
`mergedchoicetable` and `probabilities` are still `None` and (when the
run completed and wrote back) `choices` is set; after a completed
unconstrained run all three are set; any short-circuited or failed run
(no write-back) leaves all three diagnostics `None`. -/
theorem C10_run_frame (env : RunEnv) (s : LMLStep) :
    (runStep env s).1.config = s.config ∧
    (s.config.constrained_choices = true →
      (runStep env s).1.mergedchoicetable = none ∧
      (runStep env s).1.probabilities = none) ∧
    ((runStep env s).2.1.updates = [] →
      (runStep env s).1.mergedchoicetable = none ∧
      (runStep env s).1.probabilities = none ∧
      (runStep env s).1.choices = none) ∧
    ((runStep env s).2.2 = none → (runStep env s).2.1.updates ≠ [] →
      ((s.config.constrained_choices = true →
          ∃ c, (runStep env s).1.choices = some c) ∧
       (s.config.constrained_choices = false →
          ∃ m p c, (runStep env s).1.mergedchoicetable = some m ∧
            (runStep env s).1.probabilities = some p ∧
            (runStep env s).1.choices = some c))) := by
  unfold runStep runCore runCoreAux
  split
  · simp_all
  · split
    · simp_all
    · split
      · simp_all
      · split
        · simp_all
        · split
          · simp_all
          · split
            · simp_all
            · simp_all

def c10env : RunEnv :=
  ⟨[("hh", ⟨"hh_id", [1], [("x", ⟨"i8", [(1, 2)]⟩)]⟩),
    ("bld", ⟨"b_id", [7], [("z", ⟨"i8", [(7, 3)]⟩)]⟩)],
   fun _ _ => 0, fun _ => 0, fun _ _ => 0, 4,
   fun _ _ => [(1, [(7, 1)])], fun _ m => m⟩

def c10cfg : LMLConfig :=
  { choosers := some (.one "hh"), alternatives := some (.one "bld"),
    model_expression := some ⟨["x", "z"]⟩, choice_column := some "b_id",
    chooser_filters := none, chooser_sample_size := none,
    alt_filters := none, alt_sample_size := none,
    out_choosers := none, out_alternatives := none, out_column := none,
    out_chooser_filters := none, out_alt_filters := none,
    constrained_choices := true, alt_capacity := none, chooser_size := none,
    max_iter := none, mct_intx_ops := none, name := none, tags := [],
    summary_table := none, fitted_parameters := some [1],
    model := some ⟨some ⟨["x", "z"]⟩, [1]⟩ }

def c10s : LMLStep := ⟨c10cfg, none, none, none⟩

/-- Witness for C10: a completed constrained run sets only `choices`. -/
theorem C10_run_frame_witness :
    (runStep c10env c10s).1.config = c10cfg ∧
    ((runStep c10env c10s).1.mergedchoicetable = none ∧
      (runStep c10env c10s).1.probabilities = none) ∧
    (∃ c, (runStep c10env c10s).1.choices = some c) := by
  have h := C10_run_frame c10env c10s
  exact ⟨h.1, h.2.1 rfl, (h.2.2.2 rfl (by decide)).1 rfl⟩

/-- C7: `update_column(table, column, data)` creates the named column
holding the data when it does not exist in the resolved target table, and
otherwise updates the existing column with the data cast to its existing
dtype (`update_col_from_series` with `cast=True`); and every `run()` call
that computes choices records exactly one such write-back, passing the
output table (falling back to the chooser table), the output column
(falling back to the choice column) and the choices keyed by chooser
id. -/
theorem C7_update_column_run (castV : String → Int → Int)
    (world : World) (table fbt : Option TableArg) (column fbc : Option String)
    (data : Series) (tname c : String) (tbl : OTable)
    (hres : resolveName table fbt = some tname)
    (hcol : resolveColumn column fbc = some c)
    (htbl : world.lookup tname = some tbl) :
    (tbl.columns.lookup c = none →
      ∃ world', update_column castV world table fbt column fbc data =
          .ok world' ∧
        ∃ tbl', world'.lookup tname = some tbl' ∧
          tbl'.columns.lookup c = some ⟨data.dtype, data.vals⟩) ∧
    (∀ oc, tbl.columns.lookup c = some oc →
      ∃ world', update_column castV world table fbt column fbc data =
          .ok world' ∧
        ∃ tbl', world'.lookup tname = some tbl' ∧
          tbl'.columns.lookup c =
            some (update_col_from_series castV oc data)) ∧
    (∀ (env : RunEnv) (s : LMLStep) (ch : List (Nat × Nat)),
      (runStep env s).1.choices = some ch →
      (runStep env s).2.1.updates =
        [⟨s.config.out_choosers, s.config.choosers, s.config.out_column,
          s.config.choice_column, ch⟩]) := by
  refine ⟨?_, ?_, ?_⟩
  · intro hnone
    simp only [update_column, hres, hcol, htbl, hnone, Option.isSome_none,
      Bool.false_eq_true, if_false]
    refine ⟨_, rfl, _, worldSet_lookup world tname _ tbl htbl, ?_⟩
    exact lookup_append_new tbl.columns c _ hnone
  · intro oc hsome
    simp only [update_column, hres, hcol, htbl, hsome, Option.isSome_some,
      if_true]
    refine ⟨_, rfl, _, worldSet_lookup world tname _ tbl htbl, ?_⟩
    rw [lookup_map_update tbl.columns c
      (fun col => update_col_from_series castV col data), hsome]
    rfl
  · intro env s ch hch
    revert hch
    unfold runStep runCore runCoreAux
    split
    · simp_all
    · split
      · simp_all
      · split
        · simp_all
        · split
          · simp_all
          · split
            · simp_all
            · split
              · intro hch
                simp only [Option.some.injEq] at hch
                rw [← hch]
              · intro hch
                simp only [Option.some.injEq] at hch
                rw [← hch]

def c7world : World :=
  [("hh", ⟨"hh_id", [1], [("x", ⟨"i8", [(1, 2)]⟩)]⟩),
   ("bld", ⟨"b_id", [7], [("z", ⟨"i8", [(7, 3)]⟩)]⟩)]

def c7env : RunEnv :=
  ⟨c7world, fun _ _ => 0, fun _ => 0, fun _ _ => 0, 4,
   fun _ _ => [(1, [(7, 1)])], fun _ m => m⟩

def c7cfg : LMLConfig :=
  { choosers := some (.one "hh"), alternatives := some (.one "bld"),
    model_expression := some ⟨["x", "z"]⟩, choice_column := some "b_id",
    chooser_filters := none, chooser_sample_size := none,
    alt_filters := none, alt_sample_size := none,
    out_choosers := none, out_alternatives := none, out_column := none,
    out_chooser_filters := none, out_alt_filters := none,
    constrained_choices := false, alt_capacity := none, chooser_size := none,
    max_iter := none, mct_intx_ops := none, name := none, tags := [],
    summary_table := none, fitted_parameters := some [1],
    model := some ⟨some ⟨["x", "z"]⟩, [1]⟩ }

def c7s : LMLStep := ⟨c7cfg, none, none, none⟩

def c7tbl : OTable := ⟨"hh_id", [1], [("x", ⟨"i8", [(1, 2)]⟩)]⟩

/-- Witness for C7: creating a fresh column, updating an existing one,
and a completed run recording exactly one write-back of its choices. -/
theorem C7_update_column_run_witness :
    (∃ world', update_column (fun _ v => v) c7world (some (.one "hh")) none
        (some "y") none ⟨"i8", [(1, 9)]⟩ = .ok world' ∧
      ∃ tbl', world'.lookup "hh" = some tbl' ∧
        tbl'.columns.lookup "y" = some ⟨"i8", [(1, 9)]⟩) ∧
    (∃ world', update_column (fun _ v => v) c7world (some (.one "hh")) none
        (some "x") none ⟨"i8", [(1, 9)]⟩ = .ok world' ∧
      ∃ tbl', world'.lookup "hh" = some tbl' ∧
        tbl'.columns.lookup "x" =
          some (update_col_from_series (fun _ v => v) ⟨"i8", [(1, 2)]⟩
            ⟨"i8", [(1, 9)]⟩)) ∧
    (runStep c7env c7s).2.1.updates =
      [⟨none, some (.one "hh"), none, some "b_id", [(1, 7)]⟩] := by
  refine ⟨?_, ?_, ?_⟩
  · exact (C7_update_column_run (fun _ v => v) c7world (some (.one "hh")) none
      (some "y") none ⟨"i8", [(1, 9)]⟩ "hh" "y" c7tbl rfl rfl rfl).1 rfl
  · exact (C7_update_column_run (fun _ v => v) c7world (some (.one "hh")) none
      (some "x") none ⟨"i8", [(1, 9)]⟩ "hh" "x" c7tbl rfl rfl rfl).2.1
      ⟨"i8", [(1, 2)]⟩ rfl
  · exact (C7_update_column_run (fun _ v => v) c7world (some (.one "hh")) none
      (some "y") none ⟨"i8", [(1, 9)]⟩ "hh" "y" c7tbl rfl rfl rfl).2.2
      c7env c7s [(1, 7)] rfl

/-! ## `to_dict` / `from_dict` round trip -/

/-- The dictionary representation produced by
`LargeMultinomialLogitStep.to_dict` (one field per key). -/
structure StepDict where
  template : String
  template_version : String
  name : Option String
  tags : List String
  choosers : Option TableArg
  alternatives : Option TableArg
  model_expression : Option Expression
  choice_column : Option String
  chooser_filters : Option (List QFilter)
  chooser_sample_size : Option Nat
  alt_filters : Option (List QFilter)
  alt_sample_size : Option Nat
  out_choosers : Option TableArg
  out_alternatives : Option TableArg
  out_column : Option String
  out_chooser_filters : Option (List QFilter)
  out_alt_filters : Option (List QFilter)
  constrained_choices : Bool
  alt_capacity : Option String
  chooser_size : Option String
  max_iter : Option Nat
  mct_intx_ops : Option IntxOps
  summary_table : Option String
  fitted_parameters : Option (List Int)

/-- Embedding of `TemplateStep._normalize_table_param` (applied by the property setters
of the four table parameters): `[]` becomes `None`, a one-element list
becomes its element, everything else is unchanged. -/
def normalizeTableParam : Option TableArg → Option TableArg
  | some (.many []) => none
  | some (.many [x]) => some (.one x)
  | v => v

theorem normalizeTableParam_idem (v : Option TableArg) :
    normalizeTableParam (normalizeTableParam v) = normalizeTableParam v := by
  rcases v with _ | v
  · rfl
  · rcases v with n | l
    · rfl
    · rcases l with _ | ⟨x, _ | ⟨y, t⟩⟩ <;> rfl

/-- The constructor parameters of `LargeMultinomialLogitStep.__init__`. -/
structure InitArgs where
  choosers : Option TableArg
  alternatives : Option TableArg
  model_expression : Option Expression
  choice_column : Option String
  chooser_filters : Option (List QFilter)
  chooser_sample_size : Option Nat
  alt_filters : Option (List QFilter)
  alt_sample_size : Option Nat
  out_choosers : Option TableArg
  out_alternatives : Option TableArg
  out_column : Option String
  out_chooser_filters : Option (List QFilter)
  out_alt_filters : Option (List QFilter)
  constrained_choices : Bool
  alt_capacity : Option String
  chooser_size : Option String
  max_iter : Option Nat
  mct_intx_ops : Option IntxOps
  name : Option String
  tags : List String

/-- Embedding of `LargeMultinomialLogitStep.__init__`: each parameter is stored through
its property setter (the four table parameters are normalized); the model
fit placeholders and the diagnostics start out `None`. -/
def lmlInit (a : InitArgs) : LMLStep :=
  { config :=
    { choosers := normalizeTableParam a.choosers,
      alternatives := normalizeTableParam a.alternatives,
      model_expression := a.model_expression,
      choice_column := a.choice_column,
      chooser_filters := a.chooser_filters,
      chooser_sample_size := a.chooser_sample_size,
      alt_filters := a.alt_filters,
      alt_sample_size := a.alt_sample_size,
      out_choosers := normalizeTableParam a.out_choosers,
      out_alternatives := normalizeTableParam a.out_alternatives,
      out_column := a.out_column,
      out_chooser_filters := a.out_chooser_filters,
      out_alt_filters := a.out_alt_filters,
      constrained_choices := a.constrained_choices,
      alt_capacity := a.alt_capacity,
      chooser_size := a.chooser_size,
      max_iter := a.max_iter,
      mct_intx_ops := a.mct_intx_ops,
      name := a.name,
      tags := a.tags,
      summary_table := none,
      fitted_parameters := none,
      model := none },
    mergedchoicetable := none, probabilities := none, choices := none }

/-- Embedding of `LargeMultinomialLogitStep.from_dict`: build the object from the
dictionary values, restore the fit data, and rebuild the model from the
fitted parameters when they are present. -/
def from_dict (d : StepDict) : LMLStep :=
  let obj := lmlInit
    ⟨d.choosers, d.alternatives, d.model_expression, d.choice_column,
     d.chooser_filters, d.chooser_sample_size, d.alt_filters,
     d.alt_sample_size, d.out_choosers, d.out_alternatives, d.out_column,
     d.out_chooser_filters, d.out_alt_filters, d.constrained_choices,
     d.alt_capacity, d.chooser_size, d.max_iter, d.mct_intx_ops, d.name,
     d.tags⟩
  { obj with config :=
    { obj.config with
      summary_table := d.summary_table,
      fitted_parameters := d.fitted_parameters,
      model := match d.fitted_parameters with
        | some fp => some ⟨obj.config.model_expression, fp⟩
        | none => none } }

/-- Embedding of `LargeMultinomialLogitStep.to_dict`. -/
def to_dict (s : LMLStep) : StepDict :=
  { template := "LargeMultinomialLogitStep",
    template_version := "0.2.dev7",
    name := s.config.name,
    tags := s.config.tags,
    choosers := s.config.choosers,
    alternatives := s.config.alternatives,
    model_expression := s.config.model_expression,
    choice_column := s.config.choice_column,
    chooser_filters := s.config.chooser_filters,
    chooser_sample_size := s.config.chooser_sample_size,
    alt_filters := s.config.alt_filters,
    alt_sample_size := s.config.alt_sample_size,
    out_choosers := s.config.out_choosers,
    out_alternatives := s.config.out_alternatives,
    out_column := s.config.out_column,
    out_chooser_filters := s.config.out_chooser_filters,
    out_alt_filters := s.config.out_alt_filters,
    constrained_choices := s.config.constrained_choices,
    alt_capacity := s.config.alt_capacity,
    chooser_size := s.config.chooser_size,
    max_iter := s.config.max_iter,
    mct_intx_ops := s.config.mct_intx_ops,
    summary_table := s.config.summary_table,
    fitted_parameters := s.config.fitted_parameters }

/-- C9: for every object whose four table parameters are in the image of
the normalizing setters (which is every object built through `__init__`
or the property setters, since normalization is idempotent --
`normalizeTableParam_idem`), `from_dict (to_dict s)` produces an object
whose `to_dict` equals `to_dict s`: every configuration parameter and the
fit results are preserved. -/
theorem C9_dict_roundtrip (s : LMLStep)
    (h1 : normalizeTableParam s.config.choosers = s.config.choosers)
    (h2 : normalizeTableParam s.config.alternatives = s.config.alternatives)
    (h3 : normalizeTableParam s.config.out_choosers = s.config.out_choosers)
    (h4 : normalizeTableParam s.config.out_alternatives =
      s.config.out_alternatives) :
    to_dict (from_dict (to_dict s)) = to_dict s := by
  unfold to_dict from_dict lmlInit
  simp [h1, h2, h3, h4]

/-- Witness for C9: a configured, fitted step round-trips. -/
theorem C9_dict_roundtrip_witness :
    to_dict (from_dict (to_dict c7s)) = to_dict c7s :=
  C9_dict_roundtrip c7s rfl rfl rfl rfl

end UrbansimTemplates
